import Mathlib

/-!
Shallow embedding of the `incrementor` version-bumping tool.

Text is modelled as `List Char`.  The pieces of the `semver` crate that the
program uses (`Version`, `Prerelease::new`, `BuildMetadata::new`, `Display`)
are modelled after that crate's documented validation rules; `u64` values are
`Nat` with explicit `2 ^ 64` bounds where the code can overflow or fail to
parse.  Rust panics (`unwrap`, `panic!`) are modelled by a dedicated
`BumpResult.panics` outcome; fallible code returns `Except`/`Option`.
-/

namespace Incrementor

/-- Left curly brace character (written via its code point). -/
def lbrace : Char := '\x7b'

/-- Right curly brace character (written via its code point). -/
def rbrace : Char := '\x7d'

/-- The literal token `(lbrace)current_version(rbrace)` matched by the first regex in
`Placeholders::replace` (src/lib.rs line 25). -/
def tokCur : List Char := lbrace :: "current_version".toList ++ [rbrace]

/-- The literal token for the new version matched by the second regex in
`Placeholders::replace` (src/lib.rs line 26). -/
def tokNew : List Char := lbrace :: "new_version".toList ++ [rbrace]

/-- Boolean list-prefix test (models matching a literal pattern at a position). -/
def isPre : List Char → List Char → Bool
  | [], _ => true
  | _ :: _, [] => false
  | a :: t, b :: s => if a = b then isPre t s else false

/-- Whether `tok` occurs as a contiguous sublist of `s`. -/
def containsTok (tok : List Char) : List Char → Bool
  | [] => tok.isEmpty
  | c :: rest => isPre tok (c :: rest) || containsTok tok rest

/-- Replace the first (leftmost) occurrence of the literal `tok` in `s` by `r`.
This models `regex::Regex::replace` (singular) applied to a literal pattern,
which is what `Placeholders::replace` calls (src/lib.rs lines 28-29). -/
def replaceFirst (tok r : List Char) : List Char → List Char
  | [] => if tok = [] then r else []
  | c :: rest =>
      if isPre tok (c :: rest) then r ++ (c :: rest).drop tok.length
      else c :: replaceFirst tok r rest

/-- Rust `str::split('.')`: splitting the empty string yields one empty piece. -/
def splitDot : List Char → List (List Char)
  | [] => [[]]
  | c :: rest =>
      let r := splitDot rest
      if c = '.' then [] :: r
      else
        match r with
        | g :: gs => (c :: g) :: gs
        | [] => [[c]]

/-- Decimal value of a digit string. -/
def digitsVal (s : List Char) : Nat := s.foldl (fun a c => a * 10 + (c.toNat - 48)) 0

/-- Drop one optional leading `+` sign (Rust's integer parsing accepts it). -/
def stripPlus : List Char → List Char
  | '+' :: r => r
  | s => s

/-- Model of Rust `str::parse::<u64>()`: optional leading `+`, then one or
more ASCII digits, value below `2 ^ 64`; anything else is a parse error. -/
def parseU64 (s : List Char) : Option Nat :=
  let t := stripPlus s
  if !t.isEmpty && t.all (·.isDigit) && decide (digitsVal t < 2 ^ 64) then some (digitsVal t)
  else none

/-- Characters allowed in semver prerelease / build identifiers. -/
def identChar (c : Char) : Bool := c.isAlpha || c.isDigit || c = '-'

/-- Nonempty all-digit string. -/
def isDigits (s : List Char) : Bool := !s.isEmpty && s.all (·.isDigit)

/-- A valid semver prerelease identifier: nonempty, alphanumeric/hyphen, and a
numeric identifier must not have a leading zero. -/
def validPreIdent (s : List Char) : Bool :=
  !s.isEmpty && s.all identChar &&
    !(isDigits s && decide (s.length > 1) && s.headD ' ' = '0')

/-- Model of `semver::Prerelease::new`: the empty string is the empty
prerelease; otherwise every dot-separated identifier must be valid. -/
def Prerelease.new (s : List Char) : Option (List Char) :=
  if s = [] then some []
  else if (splitDot s).all validPreIdent then some s
  else none

/-- Model of `semver::BuildMetadata::new`: like prerelease identifiers but
leading zeros are permitted. -/
def BuildMetadata.new (s : List Char) : Option (List Char) :=
  if s = [] then some []
  else if (splitDot s).all (fun t => !t.isEmpty && t.all identChar) then some s
  else none

/-- Model of `semver::Version`: numeric fields are `u64` (modelled as `Nat`
with explicit bounds where arithmetic can overflow); `pre`/`build` are the
raw prerelease and build-metadata strings, `[]` meaning absent. -/
structure Version where
  major : Nat
  minor : Nat
  patch : Nat
  pre : List Char
  build : List Char
deriving DecidableEq

/-- Canonical semver rendering (`Display` for `semver::Version`). -/
def versionChars (v : Version) : List Char :=
  (Nat.repr v.major).toList ++ '.' :: (Nat.repr v.minor).toList
    ++ '.' :: (Nat.repr v.patch).toList
    ++ (if v.pre = [] then [] else '-' :: v.pre)
    ++ (if v.build = [] then [] else '+' :: v.build)

/-- The `Part` enum of src/lib.rs lines 9-15. -/
inductive Part
  | major
  | minor
  | patch
  | prerelease (label : Option (List Char))
  | none
deriving DecidableEq

/-- The `Placeholders` struct of src/lib.rs lines 18-21. -/
structure Placeholders where
  current_version : Version
  new_version : Version

/-- `Placeholders::replace` (src/lib.rs lines 24-32): replace the FIRST
occurrence of the current-version token, then the FIRST occurrence of the
new-version token in the result (`Regex::replace`, not `replace_all`). -/
def Placeholders.replace (ph : Placeholders) (s : List Char) : List Char :=
  replaceFirst tokNew (versionChars ph.new_version)
    (replaceFirst tokCur (versionChars ph.current_version) s)

/-- Errors returned (as `eyre` errors) by `bump`. -/
inductive BumpErr
  | noPrereleaseToRemove (v : Version)
  | invalidPrerelease
deriving DecidableEq

/-- Outcome of `bump`: a returned `Ok` version, a returned `Err`, or a Rust
panic (`unwrap` failure, `panic!("impossible")`, or checked-arithmetic
overflow). -/
inductive BumpResult
  | ok (v : Version)
  | err (e : BumpErr)
  | panics
deriving DecidableEq

/-- `parse_prerelease` (src/lib.rs lines 83-93).  The outer `Option` is the
panic of `version_string.parse().unwrap()` on an unparseable second segment:
`none` means the function panics. -/
def parse_prerelease (s : List Char) : Option (Option (List Char) × Option Nat) :=
  let splits := splitDot s
  match splits.head? with
  | Option.some label =>
      match splits[1]? with
      | Option.some seg =>
          match parseU64 seg with
          | Option.some n => some (some label, some n)
          | Option.none => none
      | Option.none => some (some label, none)
  | Option.none => some (none, none)

/-- `make_prerelease` (src/lib.rs lines 95-97): `format!("(label).(version)")`. -/
def make_prerelease (label : List Char) (version : Nat) : List Char :=
  label ++ '.' :: (Nat.repr version).toList

/-- The trailing build-metadata assignment of `bump` (src/lib.rs line 78):
`new_version.build = build.map_or(EMPTY, |x| BuildMetadata::new(&x).unwrap())`,
whose `unwrap` panics on an invalid build string, followed by `Ok(new_version)`. -/
def attachBuild (build : Option (List Char)) (nv : Version) : BumpResult :=
  match build with
  | Option.none => .ok { nv with build := [] }
  | Option.some x =>
      match BuildMetadata.new x with
      | Option.some b => .ok { nv with build := b }
      | Option.none => .panics

/-- `bump` (src/lib.rs lines 39-81).  `attach` is the build-metadata step of
line 78; the `Prerelease(None)` arm returns early (lines 44-53) and therefore
never reaches it.  `u64` increments use checked (debug) semantics: overflow
panics. -/
def bump (v : Version) (part : Part) (build : Option (List Char)) : BumpResult :=
  let attach : Version → BumpResult := attachBuild build
  match part with
  | .major =>
      if v.major + 1 ≥ 2 ^ 64 then .panics
      else attach ⟨v.major + 1, 0, 0, [], []⟩
  | .minor =>
      if v.minor + 1 ≥ 2 ^ 64 then .panics
      else attach ⟨v.major, v.minor + 1, 0, [], []⟩
  | .patch =>
      if v.patch + 1 ≥ 2 ^ 64 then .panics
      else attach ⟨v.major, v.minor, v.patch + 1, [], []⟩
  | .prerelease Option.none =>
      if v.pre = [] then .err (.noPrereleaseToRemove v)
      else .ok { v with pre := [] }
  | .prerelease (Option.some label) =>
      match parse_prerelease v.pre with
      | Option.none => .panics
      | Option.some pc =>
          match pc with
          | (Option.some existing, Option.none) =>
              if existing = label then
                match Prerelease.new (make_prerelease label 1) with
                | Option.some p => attach { v with pre := p }
                | Option.none => .err .invalidPrerelease
              else
                match Prerelease.new label with
                | Option.some p => attach { v with pre := p }
                | Option.none => .err .invalidPrerelease
          | (Option.some existing, Option.some n) =>
              if existing = label then
                if n + 1 ≥ 2 ^ 64 then .panics
                else
                  match Prerelease.new (make_prerelease label (n + 1)) with
                  | Option.some p => attach { v with pre := p }
                  | Option.none => .err .invalidPrerelease
              else
                match Prerelease.new label with
                | Option.some p => attach { v with pre := p }
                | Option.none => .err .invalidPrerelease
          | (Option.none, _) => attach { v with pre := [] }
  | .none => .panics

/-- The fields of the CLI `Args` struct consulted by `parse_part_from_args`
(src/main.rs lines 155-170). -/
structure ArgsPart where
  prerelease : Option (List Char)
  patch : Bool
  minor : Bool
  major : Bool
  release : Bool
deriving DecidableEq

/-- `parse_part_from_args` (src/main.rs lines 155-170): the Rust `match` over
the five flags, falling through to `Part::None` when none is selected. -/
def parse_part_from_args (args : ArgsPart) : Part :=
  match args.prerelease, args.patch, args.minor, args.major, args.release with
  | Option.some p, _, _, _, _ => .prerelease (Option.some p)
  | Option.none, true, _, _, _ => .patch
  | Option.none, _, true, _, _ => .minor
  | Option.none, _, _, true, _ => .major
  | Option.none, _, _, _, true => .prerelease Option.none
  | Option.none, false, false, false, false => .none

/-- The new-version selection in `main` (src/main.rs lines 203-211): an
explicit `--new-version` argument (already parsed into a `Version`) is used
verbatim; otherwise `bump` is called.  The `build` argument reaches only the
`bump` branch. -/
def resolve_new_version (new_version : Option Version) (current : Version)
    (part : Part) (build : Option (List Char)) : BumpResult :=
  match new_version with
  | Option.some v => .ok v
  | Option.none => bump current part build

/-- Tokens of the compiled search pattern.  The model covers the regex
fragment the rewriter's rendered patterns use: literal characters, escaped
literals (`\x`), `.` (any character but newline), and the multi-line anchors
`^` and `$` (`RegexBuilder::multi_line(true)`, src/main.rs line 289). -/
inductive RTok
  | lit (c : Char)
  | dot
  | caret
  | dollar
deriving DecidableEq

/-- Regex metacharacters outside the modelled fragment; a pattern containing
one unescaped is treated as failing to build. -/
def metachar (c : Char) : Bool :=
  c = '*' || c = '+' || c = '?' || c = '[' || c = ']' || c = '(' || c = ')'
    || c = lbrace || c = rbrace || c = '|'

/-- Compile a rendered pattern string into tokens.  A backslash escapes the
next non-alphanumeric character to a literal (as `\+` produced by the `+`
escaping step); alphanumeric escapes (character classes) and unescaped
metacharacters are outside the modelled fragment and fail to build. -/
def compile : List Char → Option (List RTok)
  | [] => some []
  | '\\' :: rest =>
      match rest with
      | [] => Option.none
      | c :: rest' =>
          if c.isAlphanum then Option.none
          else
            match compile rest' with
            | Option.some r => some (.lit c :: r)
            | Option.none => Option.none
  | c :: rest =>
      if metachar c then Option.none
      else
        match compile rest with
        | Option.some r =>
            some ((if c = '.' then RTok.dot
                   else if c = '^' then RTok.caret
                   else if c = '$' then RTok.dollar
                   else RTok.lit c) :: r)
        | Option.none => Option.none

/-- Match the token list at the current position.  `prev` is the character
just before the position (`none` at the start of the haystack); on success
returns the consumed characters and the remaining suffix.  `^` matches at the
start or after a newline, `$` at the end or before a newline (multi-line
mode); `.` matches any character except newline. -/
def matchHere : List RTok → Option Char → List Char → Option (List Char × List Char)
  | [], _, s => some ([], s)
  | .lit _ :: _, _, [] => Option.none
  | .lit c :: re, _, x :: xs =>
      if x = c then
        match matchHere re (some x) xs with
        | Option.some (cs, r) => some (x :: cs, r)
        | Option.none => Option.none
      else Option.none
  | .dot :: _, _, [] => Option.none
  | .dot :: re, _, x :: xs =>
      if x = '\n' then Option.none
      else
        match matchHere re (some x) xs with
        | Option.some (cs, r) => some (x :: cs, r)
        | Option.none => Option.none
  | .caret :: re, prev, s =>
      match prev with
      | Option.none => matchHere re prev s
      | Option.some p => if p = '\n' then matchHere re prev s else Option.none
  | .dollar :: re, prev, s =>
      match s with
      | [] => matchHere re prev []
      | x :: _ => if x = '\n' then matchHere re prev s else Option.none

/-- Whether the pattern matches anywhere at or after the current position. -/
def isMatchFrom (re : List RTok) (prev : Option Char) (s : List Char) : Bool :=
  (matchHere re prev s).isSome ||
    match s with
    | [] => false
    | x :: xs => isMatchFrom re (some x) xs

/-- `Regex::is_match` over the whole haystack. -/
def isMatch (re : List RTok) (s : List Char) : Bool := isMatchFrom re Option.none s

/-- Characters allowed in an unbraced `$name` capture reference of the regex
crate's replacement-string expansion: `[0-9A-Za-z_]`. -/
def nameChar (c : Char) : Bool := c.isAlphanum || c = '_'

/-- Model of Rust `str::parse::<u32>()` as used on a capture-reference name:
optional leading `+`, digits, value below `2 ^ 32`. -/
def parseU32 (s : List Char) : Option Nat :=
  let t := stripPlus s
  if !t.isEmpty && t.all (·.isDigit) && decide (digitsVal t < 2 ^ 32) then some (digitsVal t)
  else none

/-- Scan to the closing brace of a braced `$`-reference: on success returns
the name and the remainder after the brace. -/
def findBrace : List Char → Option (List Char × List Char)
  | [] => Option.none
  | c :: rest =>
      if c = rbrace then some ([], rest)
      else
        match findBrace rest with
        | Option.some (nm, r) => some (c :: nm, r)
        | Option.none => Option.none

/-- Value of a capture reference during replacement expansion.  The compiled
fragment has no capture groups (`compile` rejects `(`), so group 0 — the
whole match — is the only group that exists; a numeric reference to any other
group, or a name that is not a `u32`, expands to the empty string, as the
regex crate's `Captures::expand` does for absent groups. -/
def groupValue (matched nm : List Char) : List Char :=
  match parseU32 nm with
  | Option.some 0 => matched
  | Option.some _ => []
  | Option.none => []

/-- The regex crate's `$`-expansion of a replacement string against one match
(`expand_str`): `$$` is a literal `$`; `$name` (longest run of
`[0-9A-Za-z_]`) and `${name}` are capture references resolved by
`groupValue`; a `$` followed by neither a name nor a brace pair stays
literal.  Fuel-bounded: every step consumes at least one character, so
`repl.length + 1` fuel always suffices and the fuel-exhausted branch is
unreachable. -/
def expandDollar (matched : List Char) : Nat → List Char → List Char
  | 0, s => s
  | _ + 1, [] => []
  | fuel + 1, c :: rest =>
      if c = '$' then
        if rest.headD ' ' = '$' then '$' :: expandDollar matched fuel rest.tail
        else if rest.headD ' ' = lbrace then
          match findBrace rest.tail with
          | Option.some (nm, r) => groupValue matched nm ++ expandDollar matched fuel r
          | Option.none => '$' :: expandDollar matched fuel rest
        else
          let nm := rest.takeWhile nameChar
          if nm.isEmpty then '$' :: expandDollar matched fuel rest
          else groupValue matched nm ++ expandDollar matched fuel (rest.drop nm.length)
      else c :: expandDollar matched fuel rest

/-- The text inserted for one match: the rendered replacement template with
its `$`-references expanded against that match. -/
def insertFor (matched repl : List Char) : List Char :=
  expandDollar matched (repl.length + 1) repl

/-- One fuel-bounded step of leftmost non-overlapping replace-all.  Each step
either emits one unmatched character, or replaces a match with the
`$`-expanded replacement (advancing one extra character after an empty
match, as the regex crate does).  The scan advances at least one character
per step, so `s.length + 1` fuel always suffices; the fuel-exhausted branch
is unreachable. -/
def replaceAllFrom (re : List RTok) (repl : List Char) :
    Nat → Option Char → List Char → List Char
  | 0, _, s => s
  | fuel + 1, prev, s =>
      match matchHere re prev s with
      | Option.none =>
          match s with
          | [] => []
          | x :: xs => x :: replaceAllFrom re repl fuel (some x) xs
      | Option.some ([], _) =>
          match s with
          | [] => insertFor [] repl
          | x :: xs => insertFor [] repl ++ x :: replaceAllFrom re repl fuel (some x) xs
      | Option.some (a :: as, r) =>
          insertFor (a :: as) repl
            ++ replaceAllFrom re repl fuel (some ((a :: as).getLastD ' ')) r

/-- `Regex::replace_all` with a `String` replacer, which `$`-expands each
match's replacement (`expand_str`). -/
def replaceAll (re : List RTok) (repl : List Char) (s : List Char) : List Char :=
  replaceAllFrom re repl (s.length + 1) Option.none s

/-- The `FileConfig` struct (src/config.rs lines 12-15). -/
structure FileConfig where
  search : List Char
  replace : List Char

/-- Errors of `replace_version`: a pattern failing to build (`.build()?`,
src/main.rs line 290) or the pattern matching nowhere (src/main.rs lines
297-301, which reports the rendered pattern and the file path). -/
inductive RewriteErr
  | regexBuild
  | patternNotFound (pattern : List Char) (path : String)
deriving DecidableEq

/-- The `+`-escaping step of src/main.rs line 287: `.replace('+', "\\+")`. -/
def escapePlus (s : List Char) : List Char :=
  s.foldr (fun c acc => (if c = '+' then ['\\', '+'] else [c]) ++ acc) []

/-- `replace_version` (src/main.rs lines 277-303): render the search template,
escape `+`, compile multi-line; render the replacement; if the pattern
matches, replace all occurrences, otherwise fail with the rendered pattern
and path. -/
def replace_version (content : List Char) (file_path : String)
    (file_config : FileConfig) (ph : Placeholders) : Except RewriteErr (List Char) :=
  let pat := escapePlus (ph.replace file_config.search)
  match compile pat with
  | Option.none => .error .regexBuild
  | Option.some re =>
      let replace_value := ph.replace file_config.replace
      if isMatch re content then .ok (replaceAll re replace_value content)
      else .error (.patternNotFound pat file_path)

/-- Errors surfaced by the file loop in `main`. -/
inductive MainErr
  | fileNotFound (path : String)
  | rewrite (e : RewriteErr)
deriving DecidableEq

/-- The working tree: path to file contents. -/
abbrev FS := String → Option (List Char)

/-- `fs::write`: overwrite one path. -/
def writeFS (fs : FS) (p : String) (c : List Char) : FS :=
  fun q => if q = p then some c else fs q

/-- The file loop of `main` (src/main.rs lines 231-251): for each configured
file in order, read it (error if missing), rewrite it, and — when not in dry
run — WRITE IT IMMEDIATELY before processing the next file; abort on the
first failure, leaving the writes already performed in place. -/
def processFiles (dry_run : Bool) (ph : Placeholders) :
    List (String × FileConfig) → FS → Except MainErr Unit × FS
  | [], fs => (.ok (), fs)
  | (path, fc) :: rest, fs =>
      match fs path with
      | Option.none => (.error (.fileNotFound path), fs)
      | Option.some content =>
          match replace_version content path fc ph with
          | .error e => (.error (.rewrite e), fs)
          | .ok result =>
              processFiles dry_run ph rest (if dry_run then fs else writeFS fs path result)

/-- The tail of `main` after the file loop (src/main.rs lines 253-258): the
configuration store is rewritten with the new version only when the whole
loop succeeded and dry run is off.  The `Bool` component records whether the
config write happened. -/
def run (dry_run : Bool) (ph : Placeholders) (files : List (String × FileConfig))
    (fs : FS) : Except MainErr Unit × FS × Bool :=
  match processFiles dry_run ph files fs with
  | (.ok (), fs') => (.ok (), fs', !dry_run)
  | (.error e, fs') => (.error e, fs', false)

instance {ε α : Type} [DecidableEq ε] [DecidableEq α] : DecidableEq (Except ε α) :=
  fun a b =>
    match a, b with
    | .ok x, .ok y =>
        match decEq x y with
        | isTrue h => isTrue (h ▸ rfl)
        | isFalse h => isFalse fun hh => h (Except.ok.inj hh)
    | .error x, .error y =>
        match decEq x y with
        | isTrue h => isTrue (h ▸ rfl)
        | isFalse h => isFalse fun hh => h (Except.error.inj hh)
    | .ok _, .error _ => isFalse fun hh => Except.noConfusion hh
    | .error _, .ok _ => isFalse fun hh => Except.noConfusion hh

/-- Whether a prerelease string is valid semver (the strings carried by a
real `semver::Version`). -/
def validPre (s : List Char) : Bool := (Prerelease.new s).isSome

/-- Modelled from the claim's words (spec 4.1, Prerelease rules): decompose
the current prerelease into first-segment label and, when the second segment
is present and numeric, a counter; then: different/absent label gives the
label alone, same label without counter gives `label.1`, same label with
counter `n` gives `label.(n+1)`. -/
def claimPrerelease (pre label : List Char) : List Char :=
  if pre = [] then label
  else
    let segs := splitDot pre
    let exLabel := segs.headD []
    let counter : Option Nat :=
      match segs[1]? with
      | Option.some seg => if isDigits seg then some (digitsVal seg) else Option.none
      | Option.none => Option.none
    if exLabel ≠ label then label
    else
      match counter with
      | Option.none => label ++ '.' :: (Nat.repr 1).toList
      | Option.some n => label ++ '.' :: (Nat.repr (n + 1)).toList

/-- Concrete replacement context (1.0.0 to 2.0.0) for the Claim C1 instances. -/
def C1ph : Placeholders := ⟨⟨1, 0, 0, [], []⟩, ⟨2, 0, 0, [], []⟩⟩

/-- Two default-style file rules; the second file's contents will not match. -/
def C1files : List (String × FileConfig) :=
  [("f1", ⟨tokCur, tokNew⟩), ("f2", ⟨tokCur, tokNew⟩)]

/-- Initial working tree for the Claim C1 instances: `f1` contains the
current version, `f2` does not. -/
def C1fs : FS := fun p =>
  if p = "f1" then some "ver 1.0.0".toList
  else if p = "f2" then some "nothing".toList
  else none

/-- The default-style rule of the spec's idempotence scenario (Claim C9):
search `version = "(current)"$`, replace `version = "(new)"`. -/
def C9fc : FileConfig :=
  ⟨"version = \"".toList ++ tokCur ++ "\"$".toList,
   "version = \"".toList ++ tokNew ++ "\"".toList⟩

/-- Replacement context 0.1.0 to 0.2.0 for the Claim C9 instance. -/
def C9ph : Placeholders := ⟨⟨0, 1, 0, [], []⟩, ⟨0, 2, 0, [], []⟩⟩

/-- File contents that already carry only the new version 0.2.0. -/
def C9content : List Char := "\n version = \"0.2.0\"\n".toList

/-- The compiled form of the rendered search pattern `version = "0.1.0"$`. -/
def C9re : List RTok :=
  [.lit 'v', .lit 'e', .lit 'r', .lit 's', .lit 'i', .lit 'o', .lit 'n', .lit ' ',
   .lit '=', .lit ' ', .lit '"', .lit '0', .dot, .lit '1', .dot, .lit '0', .lit '"',
   .dollar]

/-! ### Shared lemmas about literal-token search and replacement -/

theorem isPre_append_self (t b : List Char) : isPre t (t ++ b) = true := by
  induction t with
  | nil => rfl
  | cons a t ih => simp [isPre, ih]

theorem isPre_of_append_le (t x y : List Char) (h : isPre t (x ++ y) = true)
    (hl : t.length ≤ x.length) : isPre t x = true := by
  induction t generalizing x with
  | nil => rfl
  | cons a t ih =>
    cases x with
    | nil => simp at hl
    | cons c x' =>
      simp only [List.cons_append, isPre] at h ⊢
      by_cases hac : a = c
      · rw [if_pos hac] at h ⊢
        exact ih x' h (by simpa using hl)
      · rw [if_neg hac] at h
        exact absurd h (by simp)

theorem containsTok_of_isPre (tok s : List Char) (h : isPre tok s = true) :
    containsTok tok s = true := by
  cases s with
  | nil =>
    cases tok with
    | nil => rfl
    | cons a t => simp [isPre] at h
  | cons c rest => simp [containsTok, h]

theorem replaceFirst_no_occurrence (tok r s : List Char)
    (h : containsTok tok s = false) : replaceFirst tok r s = s := by
  induction s with
  | nil =>
    cases tok with
    | nil => simp [containsTok] at h
    | cons a t => simp [replaceFirst]
  | cons c rest ih =>
    simp only [containsTok, Bool.or_eq_false_iff] at h
    simp [replaceFirst, h.1, ih h.2]

theorem replaceFirst_at_boundary (tok r a b : List Char) (htok : tok ≠ [])
    (h : containsTok tok (a ++ tok.dropLast) = false) :
    replaceFirst tok r (a ++ tok ++ b) = a ++ r ++ b := by
  induction a with
  | nil =>
    cases tok with
    | nil => exact absurd rfl htok
    | cons tc tt =>
      have hp : isPre (tc :: tt) (tc :: (tt ++ b)) = true := isPre_append_self (tc :: tt) b
      show replaceFirst (tc :: tt) r (tc :: (tt ++ b)) = r ++ b
      rw [replaceFirst, if_pos hp]
      show r ++ ((tc :: tt) ++ b).drop (tc :: tt).length = r ++ b
      rw [List.drop_left]
  | cons c a' ih =>
    have h' : (isPre tok (c :: (a' ++ tok.dropLast)) = false)
        ∧ containsTok tok (a' ++ tok.dropLast) = false := by
      have hh : containsTok tok (c :: (a' ++ tok.dropLast)) = false := h
      rw [containsTok, Bool.or_eq_false_iff] at hh
      exact hh
    obtain ⟨h1, h2⟩ := h'
    have hfalse : isPre tok (c :: (a' ++ (tok ++ b))) = false := by
      rcases Bool.eq_false_or_eq_true (isPre tok (c :: (a' ++ (tok ++ b)))) with hv | hv
      · exfalso
        have htok' : tok.dropLast ++ [tok.getLast htok] = tok :=
          List.dropLast_append_getLast htok
        have hsplit : c :: (a' ++ (tok ++ b))
            = (c :: (a' ++ tok.dropLast)) ++ ([tok.getLast htok] ++ b) := by
          conv_lhs => rw [← htok']
          simp [List.append_assoc]
        have hlen : tok.length ≤ (c :: (a' ++ tok.dropLast)).length := by
          simp only [List.length_cons, List.length_append, List.length_dropLast]
          have h1t : 1 ≤ tok.length := by
            cases tok with
            | nil => exact absurd rfl htok
            | cons x xs => simp
          omega
        have hx : isPre tok (c :: (a' ++ tok.dropLast)) = true := by
          apply isPre_of_append_le tok _ ([tok.getLast htok] ++ b) _ hlen
          rw [← hsplit]; exact hv
        rw [h1] at hx
        exact Bool.false_ne_true hx
      · exact hv
    show replaceFirst tok r (c :: (a' ++ tok ++ b)) = c :: (a' ++ r ++ b)
    rw [replaceFirst, if_neg (by simp [hfalse])]
    rw [ih h2]

theorem expandDollar_no_dollar (matched : List Char) (fuel : Nat) (repl : List Char)
    (h : containsTok ['$'] repl = false) :
    expandDollar matched fuel repl = repl := by
  induction fuel generalizing repl with
  | zero => rfl
  | succ fuel ih =>
    cases repl with
    | nil => rfl
    | cons c rest =>
      have h' : (isPre ['$'] (c :: rest) = false) ∧ containsTok ['$'] rest = false := by
        rw [containsTok, Bool.or_eq_false_iff] at h
        exact h
      have hc : c ≠ '$' := by
        intro hh
        have hp := h'.1
        rw [hh] at hp
        simp [isPre] at hp
      simp only [expandDollar]
      rw [if_neg hc, ih rest h'.2]

/-! ### Shared lemmas about the orchestrator's file loop -/

theorem processFiles_untouched (dr : Bool) (ph : Placeholders)
    (files : List (String × FileConfig)) (fs : FS) (p : String)
    (hp : ∀ q ∈ files, q.1 ≠ p) :
    (processFiles dr ph files fs).2 p = fs p := by
  induction files generalizing fs with
  | nil => rfl
  | cons f rest ih =>
    obtain ⟨path, fc⟩ := f
    have hpath : path ≠ p := hp (path, fc) (by simp)
    have hrest : ∀ q ∈ rest, q.1 ≠ p := fun q hq => hp q (by simp [hq])
    cases hread : fs path with
    | none => simp [processFiles, hread]
    | some content =>
      cases hrw : replace_version content path fc ph with
      | error e => simp [processFiles, hread, hrw]
      | ok result =>
        simp only [processFiles, hread, hrw]
        rw [ih _ hrest]
        cases dr with
        | true => rfl
        | false =>
          show writeFS fs path result p = fs p
          unfold writeFS
          rw [if_neg (fun hh => hpath hh.symm)]

theorem processFiles_error_split (ph : Placeholders) (files : List (String × FileConfig))
    (fs fs' : FS) (e : MainErr)
    (hE : processFiles false ph files fs = (.error e, fs')) :
    ∃ done bad rest, files = done ++ bad :: rest
      ∧ processFiles false ph done fs = (.ok (), fs')
      ∧ processFiles false ph (bad :: rest) fs' = (.error e, fs') := by
  induction files generalizing fs with
  | nil => simp [processFiles] at hE
  | cons f rest0 ih =>
    obtain ⟨path, fc⟩ := f
    cases hread : fs path with
    | none =>
      simp only [processFiles, hread] at hE
      obtain ⟨he, hfs⟩ := Prod.mk.injEq .. ▸ hE
      refine ⟨[], (path, fc), rest0, rfl, ?_, ?_⟩
      · subst hfs; rfl
      · subst hfs
        simp only [processFiles, hread]
        rw [← he]
    | some content =>
      cases hrw : replace_version content path fc ph with
      | error er =>
        simp only [processFiles, hread, hrw] at hE
        obtain ⟨he, hfs⟩ := Prod.mk.injEq .. ▸ hE
        refine ⟨[], (path, fc), rest0, rfl, ?_, ?_⟩
        · subst hfs; rfl
        · subst hfs
          simp only [processFiles, hread, hrw]
          rw [← he]
      | ok result =>
        simp only [processFiles, hread, hrw, Bool.false_eq_true, if_false] at hE
        obtain ⟨done', bad, rest', hsplit, hdone, hbad⟩ := ih _ hE
        refine ⟨(path, fc) :: done', bad, rest', by simp [hsplit], ?_, hbad⟩
        simp only [processFiles, hread, hrw, Bool.false_eq_true, if_false]
        exact hdone

/-! ### Shared lemmas about `bump` and the semver model -/

theorem prereleaseNew_eq_some (x y : List Char) (h : Prerelease.new x = some y) : y = x := by
  unfold Prerelease.new at h
  by_cases hx : x = []
  · rw [if_pos hx] at h
    cases h
    exact hx.symm
  · rw [if_neg hx] at h
    by_cases ha : (splitDot x).all validPreIdent = true
    · rw [if_pos ha] at h
      cases h
      rfl
    · rw [if_neg ha] at h
      cases h

theorem buildMetadataNew_eq_some (x y : List Char) (h : BuildMetadata.new x = some y) :
    y = x := by
  unfold BuildMetadata.new at h
  by_cases hx : x = []
  · rw [if_pos hx] at h
    cases h
    exact hx.symm
  · rw [if_neg hx] at h
    by_cases ha : (splitDot x).all (fun t => !t.isEmpty && t.all identChar) = true
    · rw [if_pos ha] at h
      cases h
      rfl
    · rw [if_neg ha] at h
      cases h

theorem attachBuild_ok (build : Option (List Char)) (nv r : Version)
    (h : attachBuild build nv = .ok r) : r = { nv with build := build.getD [] } := by
  cases build with
  | none =>
    simp only [attachBuild] at h
    cases h
    rfl
  | some x =>
    simp only [attachBuild] at h
    cases hb : BuildMetadata.new x with
    | none => rw [hb] at h; cases h
    | some b =>
      rw [hb] at h
      cases h
      rw [buildMetadataNew_eq_some x b hb]
      rfl

theorem stripPlus_eq (c0 : Char) (cs0 : List Char) (h : c0 ≠ '+') :
    stripPlus (c0 :: cs0) = c0 :: cs0 := by
  unfold stripPlus
  split
  · next rr heq =>
      rw [List.cons.injEq] at heq
      exact absurd heq.1 h
  · rfl

theorem splitDot_ne_nil (s : List Char) : splitDot s ≠ [] := by
  cases s with
  | nil => simp [splitDot]
  | cons c rest =>
    simp only [splitDot]
    by_cases h : c = '.'
    · simp [h]
    · rw [if_neg h]
      cases splitDot rest with
      | nil => simp
      | cons g gs => simp

theorem validPre_all (s : List Char) (hne : s ≠ []) (hv : validPre s = true) :
    (splitDot s).all validPreIdent = true := by
  unfold validPre Prerelease.new at hv
  rw [if_neg hne] at hv
  by_cases ha : (splitDot s).all validPreIdent = true
  · exact ha
  · rw [if_neg ha] at hv
    simp at hv

theorem bump_ok_build (v : Version) (part : Part) (build : Option (List Char)) (r : Version)
    (hpart : part ≠ .prerelease Option.none)
    (h : bump v part build = .ok r) : r.build = build.getD [] := by
  have hfield : ∀ nv : Version, attachBuild build nv = .ok r → r.build = build.getD [] := by
    intro nv hh
    rw [attachBuild_ok build nv r hh]
  cases part with
  | prerelease lab =>
    cases lab with
    | none => exact absurd rfl hpart
    | some label =>
      simp only [bump] at h
      repeat' split at h
      all_goals first
        | exact BumpResult.noConfusion h
        | exact hfield _ h
  | _ =>
    simp only [bump] at h
    repeat' split at h
    all_goals first
      | exact BumpResult.noConfusion h
      | exact hfield _ h

/-! ### Claim theorems -/

/-- Claim C3, counterexample: with an explicit target version `2.0.0` and
build argument `Some("x")`, the program uses the target verbatim and the
result carries no build metadata, refuting "the explicit path is still
subject to build-metadata attachment". -/
theorem C3_cex :
    resolve_new_version (some ⟨2, 0, 0, [], []⟩) ⟨1, 0, 0, [], []⟩ .major (some ['x'])
      = .ok ⟨2, 0, 0, [], []⟩
    ∧ Version.build ⟨2, 0, 0, [], []⟩ ≠ ['x'] :=
  ⟨rfl, by decide⟩

/-- Claim C3 (amended): for every parseable explicit target version, choosing
the explicit path yields exactly the target version verbatim; the supplied
build-metadata argument is ignored on this path (no build-metadata
attachment occurs, since `bump` is bypassed entirely). -/
theorem C3_amended_thm (target current : Version) (part : Part)
    (build : Option (List Char)) :
    resolve_new_version (Option.some target) current part build = .ok target := rfl

/-- Claim C4, counterexample: on current version `1.0.0-alpha.beta` (second
prerelease segment present but non-numeric), `bump` with
`Prerelease(Some("alpha"))` panics (the `parse().unwrap()` of
`parse_prerelease`) instead of returning normally. -/
theorem C4_cex :
    bump ⟨1, 0, 0, "alpha.beta".toList, []⟩ (.prerelease (some "alpha".toList))
      Option.none = .panics := by decide

/-- Claim C4 (amended): for every current version whose prerelease string has
a second dot-separated segment that does not parse as a `u64`, `bump` with
kind `Prerelease(Some(label))` panics (the counter parser's `unwrap`) rather
than treating the prerelease as having no counter. -/
theorem C4_amended_thm (v : Version) (label seg : List Char) (build : Option (List Char))
    (hseg : (splitDot v.pre)[1]? = Option.some seg)
    (hn : parseU64 seg = Option.none) :
    bump v (.prerelease (Option.some label)) build = .panics := by
  have hp : parse_prerelease v.pre = Option.none := by
    unfold parse_prerelease
    cases hs : splitDot v.pre with
    | nil => exact absurd hs (splitDot_ne_nil v.pre)
    | cons g gs =>
      rw [hs] at hseg
      simp only [hseg, hn, List.head?_cons]
  simp only [bump, hp]

/-- Claim C4, witness for the amended theorem at a concrete input. -/
theorem C4_wit :
    (splitDot "alpha.x".toList)[1]? = Option.some ['x']
    ∧ parseU64 ['x'] = Option.none
    ∧ bump ⟨2, 0, 0, "alpha.x".toList, []⟩ (.prerelease (some ['q'])) Option.none
        = .panics :=
  ⟨by decide, by decide,
    C4_amended_thm ⟨2, 0, 0, "alpha.x".toList, []⟩ ['q'] ['x'] Option.none
      (by decide) (by decide)⟩

/-- Claim C5: for every version and build argument, a returned Major bump has
core `(major+1, 0, 0)`, a Minor bump `(major, minor+1, 0)`, a Patch bump
`(major, minor, patch+1)`, and in all three cases the result's prerelease is
empty regardless of the input's prerelease. -/
theorem C5_thm (v : Version) (build : Option (List Char)) (r : Version) :
    (bump v .major build = .ok r →
      r.major = v.major + 1 ∧ r.minor = 0 ∧ r.patch = 0 ∧ r.pre = [])
    ∧ (bump v .minor build = .ok r →
      r.major = v.major ∧ r.minor = v.minor + 1 ∧ r.patch = 0 ∧ r.pre = [])
    ∧ (bump v .patch build = .ok r →
      r.major = v.major ∧ r.minor = v.minor ∧ r.patch = v.patch + 1 ∧ r.pre = []) := by
  refine ⟨?_, ?_, ?_⟩
  all_goals
    intro h
    simp only [bump] at h
    split at h
    · exact BumpResult.noConfusion h
    · have hr := attachBuild_ok _ _ _ h
      subst hr
      exact ⟨rfl, rfl, rfl, rfl⟩

/-- Claim C5, witness at concrete inputs `1.1.1-b` with no build argument. -/
theorem C5_wit :
    (bump ⟨1, 1, 1, ['b'], []⟩ .major Option.none = .ok ⟨2, 0, 0, [], []⟩
      ∧ Version.major ⟨2, 0, 0, [], []⟩ = 1 + 1 ∧ Version.minor ⟨2, 0, 0, [], []⟩ = 0
      ∧ Version.patch ⟨2, 0, 0, [], []⟩ = 0 ∧ Version.pre ⟨2, 0, 0, [], []⟩ = [])
    ∧ (bump ⟨1, 1, 1, ['b'], []⟩ .minor Option.none = .ok ⟨1, 2, 0, [], []⟩
      ∧ Version.major ⟨1, 2, 0, [], []⟩ = 1 ∧ Version.minor ⟨1, 2, 0, [], []⟩ = 1 + 1
      ∧ Version.patch ⟨1, 2, 0, [], []⟩ = 0 ∧ Version.pre ⟨1, 2, 0, [], []⟩ = [])
    ∧ (bump ⟨1, 1, 1, ['b'], []⟩ .patch Option.none = .ok ⟨1, 1, 2, [], []⟩
      ∧ Version.major ⟨1, 1, 2, [], []⟩ = 1 ∧ Version.minor ⟨1, 1, 2, [], []⟩ = 1
      ∧ Version.patch ⟨1, 1, 2, [], []⟩ = 1 + 1 ∧ Version.pre ⟨1, 1, 2, [], []⟩ = []) :=
  ⟨⟨by decide, (C5_thm ⟨1, 1, 1, ['b'], []⟩ Option.none ⟨2, 0, 0, [], []⟩).1 (by decide)⟩,
   ⟨by decide, (C5_thm ⟨1, 1, 1, ['b'], []⟩ Option.none ⟨1, 2, 0, [], []⟩).2.1 (by decide)⟩,
   ⟨by decide, (C5_thm ⟨1, 1, 1, ['b'], []⟩ Option.none ⟨1, 1, 2, [], []⟩).2.2 (by decide)⟩⟩

/-- Claim C7: `bump` with `ReleasePrerelease` (`Part::Prerelease(None)`)
errors with `NoPrereleaseToRemove` exactly when the version has no
prerelease; otherwise it returns the version with the prerelease cleared and
major, minor, patch unchanged. -/
theorem C7_thm (v : Version) (build : Option (List Char)) :
    (v.pre = [] → bump v (.prerelease Option.none) build
      = .err (.noPrereleaseToRemove v))
    ∧ (v.pre ≠ [] → bump v (.prerelease Option.none) build
      = .ok ⟨v.major, v.minor, v.patch, [], v.build⟩) := by
  constructor
  · intro hp
    simp only [bump]
    rw [if_pos hp]
  · intro hp
    simp only [bump]
    rw [if_neg hp]

/-- Claim C7, witness: the error case at `1.0.0` and the success case at
`1.2.3-a+m`. -/
theorem C7_wit :
    (Version.pre ⟨1, 0, 0, [], []⟩ = []
      ∧ bump ⟨1, 0, 0, [], []⟩ (.prerelease Option.none) Option.none
          = .err (.noPrereleaseToRemove ⟨1, 0, 0, [], []⟩))
    ∧ (Version.pre ⟨1, 2, 3, ['a'], ['m']⟩ ≠ []
      ∧ bump ⟨1, 2, 3, ['a'], ['m']⟩ (.prerelease Option.none) Option.none
          = .ok ⟨1, 2, 3, [], ['m']⟩) :=
  ⟨⟨by decide, (C7_thm ⟨1, 0, 0, [], []⟩ Option.none).1 (by decide)⟩,
   ⟨by decide, (C7_thm ⟨1, 2, 3, ['a'], ['m']⟩ Option.none).2 (by decide)⟩⟩

/-- Claim C8, counterexample: releasing the prerelease of `1.2.3-a+meta` with
build argument `None` returns `1.2.3+meta` — the input's build metadata is
carried forward (the early return skips the build-metadata step), refuting
"if it is None the result carries no build metadata". -/
theorem C8_cex :
    bump ⟨1, 2, 3, ['a'], "meta".toList⟩ (.prerelease Option.none) Option.none
      = .ok ⟨1, 2, 3, [], "meta".toList⟩
    ∧ Version.build ⟨1, 2, 3, [], "meta".toList⟩ ≠ [] :=
  ⟨by decide, by decide⟩

/-- Claim C8 (amended): on success the result's build metadata equals the
build argument (`Some(s)` gives exactly `s`, `None` gives none) for every
bump kind except `ReleasePrerelease`; for `ReleasePrerelease` the build
argument is ignored entirely and the input version's build metadata is
carried forward unchanged. -/
theorem C8_amended_thm (v : Version) (part : Part) (build : Option (List Char))
    (r : Version) :
    (part ≠ .prerelease Option.none → bump v part build = .ok r →
      r.build = build.getD [])
    ∧ bump v (.prerelease Option.none) build
        = bump v (.prerelease Option.none) Option.none
    ∧ (bump v (.prerelease Option.none) build = .ok r → r.build = v.build) := by
  refine ⟨fun hp hh => bump_ok_build v part build r hp hh, rfl, ?_⟩
  intro h
  simp only [bump] at h
  split at h
  · exact BumpResult.noConfusion h
  · cases h
    rfl

/-- Claim C8, witness for the amended theorem: build attached on a Major
bump, and build carried forward from the input on a release. -/
theorem C8_wit :
    (bump ⟨1, 1, 1, [], []⟩ .major (some "zlib-1.0.0".toList)
        = .ok ⟨2, 0, 0, [], "zlib-1.0.0".toList⟩
      ∧ Version.build ⟨2, 0, 0, [], "zlib-1.0.0".toList⟩
          = (some "zlib-1.0.0".toList).getD [])
    ∧ (bump ⟨1, 2, 3, ['a'], ['m']⟩ (.prerelease Option.none) (some ['x'])
        = .ok ⟨1, 2, 3, [], ['m']⟩
      ∧ Version.build ⟨1, 2, 3, [], ['m']⟩ = Version.build ⟨1, 2, 3, ['a'], ['m']⟩) :=
  ⟨⟨by decide,
    (C8_amended_thm ⟨1, 1, 1, [], []⟩ .major (some "zlib-1.0.0".toList)
      ⟨2, 0, 0, [], "zlib-1.0.0".toList⟩).1 (by decide) (by decide)⟩,
   ⟨by decide,
    (C8_amended_thm ⟨1, 2, 3, ['a'], ['m']⟩ .major (some ['x'])
      ⟨1, 2, 3, [], ['m']⟩).2.2 (by decide)⟩⟩

/-- Claim C10: `bump` with the publicly constructible kind `Part::None`
panics unconditionally for every version and build argument, and
`parse_part_from_args` produces exactly `Part::None` when no bump flag is
selected. -/
theorem C10_thm :
    (∀ (v : Version) (build : Option (List Char)), bump v .none build = .panics)
    ∧ parse_part_from_args ⟨Option.none, false, false, false, false⟩ = .none :=
  ⟨fun _ _ => rfl, rfl⟩

/-- Claim C6: for every semver version and label, a returned prerelease bump
keeps major, minor and patch unchanged and sets the prerelease exactly as the
spec's case analysis (`claimPrerelease`) prescribes: label alone when the
current prerelease is absent or has a different label, `label.1` when the
label matches without a counter, `label.(n+1)` when it matches with numeric
counter `n`. -/
theorem C6_thm (v : Version) (label : List Char) (build : Option (List Char)) (r : Version)
    (hv : validPre v.pre = true)
    (h : bump v (.prerelease (Option.some label)) build = .ok r) :
    r.major = v.major ∧ r.minor = v.minor ∧ r.patch = v.patch
      ∧ r.pre = claimPrerelease v.pre label := by
  by_cases hpre : v.pre = []
  · have hp : parse_prerelease v.pre = some (some [], Option.none) := by
      rw [hpre]; rfl
    simp only [bump, hp] at h
    by_cases hl : ([] : List Char) = label
    · rw [if_pos hl] at h
      have hbad : Prerelease.new (make_prerelease label 1) = Option.none := by
        rw [← hl]; decide
      rw [hbad] at h
      exact BumpResult.noConfusion h
    · rw [if_neg hl] at h
      cases hpn : Prerelease.new label with
      | none => rw [hpn] at h; exact BumpResult.noConfusion h
      | some p =>
        rw [hpn] at h
        have hr := attachBuild_ok _ _ _ h
        subst hr
        refine ⟨rfl, rfl, rfl, ?_⟩
        show p = claimPrerelease v.pre label
        rw [prereleaseNew_eq_some label p hpn, hpre]
        simp [claimPrerelease]
  · have hall : (splitDot v.pre).all validPreIdent = true := validPre_all v.pre hpre hv
    cases hs : splitDot v.pre with
    | nil => exact absurd hs (splitDot_ne_nil v.pre)
    | cons g gs =>
      cases gs with
      | nil =>
        have hp : parse_prerelease v.pre = some (some g, Option.none) := by
          unfold parse_prerelease
          simp [hs]
        simp only [bump, hp] at h
        by_cases hg : g = label
        · rw [if_pos hg] at h
          cases hpn : Prerelease.new (make_prerelease label 1) with
          | none => rw [hpn] at h; exact BumpResult.noConfusion h
          | some p =>
            rw [hpn] at h
            have hr := attachBuild_ok _ _ _ h
            subst hr
            refine ⟨rfl, rfl, rfl, ?_⟩
            show p = claimPrerelease v.pre label
            rw [prereleaseNew_eq_some _ _ hpn]
            unfold claimPrerelease
            rw [if_neg hpre]
            simp [hs, hg, make_prerelease]
        · rw [if_neg hg] at h
          cases hpn : Prerelease.new label with
          | none => rw [hpn] at h; exact BumpResult.noConfusion h
          | some p =>
            rw [hpn] at h
            have hr := attachBuild_ok _ _ _ h
            subst hr
            refine ⟨rfl, rfl, rfl, ?_⟩
            show p = claimPrerelease v.pre label
            rw [prereleaseNew_eq_some _ _ hpn]
            unfold claimPrerelease
            rw [if_neg hpre]
            simp [hs, hg]
      | cons seg gs' =>
        have hvseg : validPreIdent seg = true := by
          have hmem : seg ∈ splitDot v.pre := by rw [hs]; simp
          exact List.all_eq_true.mp hall seg hmem
        have hsegne : ¬seg.isEmpty := by
          intro hh
          unfold validPreIdent at hvseg
          rw [hh] at hvseg
          simp at hvseg
        have hsegid : seg.all identChar = true := by
          unfold validPreIdent at hvseg
          simp only [Bool.and_eq_true] at hvseg
          exact hvseg.1.2
        cases hn : parseU64 seg with
        | none =>
          have hp : parse_prerelease v.pre = Option.none := by
            unfold parse_prerelease
            simp [hs, hn]
          simp only [bump, hp] at h
          exact BumpResult.noConfusion h
        | some n =>
          have hp : parse_prerelease v.pre = some (some g, some n) := by
            unfold parse_prerelease
            simp [hs, hn]
          have hdig : isDigits seg = true ∧ digitsVal seg = n := by
            cases seg with
            | nil => simp at hsegne
            | cons c0 cs0 =>
              have hc0 : identChar c0 = true := by
                simp only [List.all_cons, Bool.and_eq_true] at hsegid
                exact hsegid.1
              have hplus : c0 ≠ '+' := by
                intro hh
                rw [hh] at hc0
                exact absurd hc0 (by decide)
              simp only [parseU64, stripPlus_eq c0 cs0 hplus] at hn
              split at hn
              · next hcond =>
                  simp only [Bool.and_eq_true] at hcond
                  cases hn
                  refine ⟨?_, rfl⟩
                  unfold isDigits
                  rw [hcond.1.1, hcond.1.2]
                  rfl
              · exact Option.noConfusion hn
          obtain ⟨hdig1, hdig2⟩ := hdig
          simp only [bump, hp] at h
          by_cases hg : g = label
          · rw [if_pos hg] at h
            split at h
            · exact BumpResult.noConfusion h
            · cases hpn : Prerelease.new (make_prerelease label (n + 1)) with
              | none => rw [hpn] at h; exact BumpResult.noConfusion h
              | some p =>
                rw [hpn] at h
                have hr := attachBuild_ok _ _ _ h
                subst hr
                refine ⟨rfl, rfl, rfl, ?_⟩
                show p = claimPrerelease v.pre label
                rw [prereleaseNew_eq_some _ _ hpn]
                unfold claimPrerelease
                rw [if_neg hpre]
                simp [hs, hg, hdig1, hdig2, make_prerelease]
          · rw [if_neg hg] at h
            cases hpn : Prerelease.new label with
            | none => rw [hpn] at h; exact BumpResult.noConfusion h
            | some p =>
              rw [hpn] at h
              have hr := attachBuild_ok _ _ _ h
              subst hr
              refine ⟨rfl, rfl, rfl, ?_⟩
              show p = claimPrerelease v.pre label
              rw [prereleaseNew_eq_some _ _ hpn]
              unfold claimPrerelease
              rw [if_neg hpre]
              simp [hs, hg]

/-- Claim C6, witness: bumping `1.0.0-beta` with label `beta` yields
prerelease `beta.1`, matching the spec's case analysis. -/
theorem C6_wit :
    validPre ("beta".toList) = true
    ∧ bump ⟨1, 0, 0, "beta".toList, []⟩ (.prerelease (some "beta".toList)) Option.none
        = .ok ⟨1, 0, 0, "beta.1".toList, []⟩
    ∧ (Version.major ⟨1, 0, 0, "beta.1".toList, []⟩ = 1
      ∧ Version.minor ⟨1, 0, 0, "beta.1".toList, []⟩ = 0
      ∧ Version.patch ⟨1, 0, 0, "beta.1".toList, []⟩ = 0
      ∧ Version.pre ⟨1, 0, 0, "beta.1".toList, []⟩
          = claimPrerelease ("beta".toList) ("beta".toList)) :=
  ⟨by decide, by decide,
    C6_thm ⟨1, 0, 0, "beta".toList, []⟩ ("beta".toList) Option.none
      ⟨1, 0, 0, "beta.1".toList, []⟩ (by decide) (by decide)⟩

/-- Claim C1, counterexample: with two file rules where the second fails with
pattern-not-found, the orchestrator has already durably written the first
file (`f1` holds `ver 2.0.0` on disk although the run errors), refuting
"leaves every file on disk exactly as found / write-all only after every
file rule has succeeded". -/
theorem C1_cex :
    (run false C1ph C1files C1fs).1
      = .error (.rewrite (.patternNotFound "1.0.0".toList "f2"))
    ∧ (run false C1ph C1files C1fs).2.1 "f1" = some "ver 2.0.0".toList
    ∧ C1fs "f1" = some "ver 1.0.0".toList
    ∧ ("ver 2.0.0".toList ≠ "ver 1.0.0".toList) :=
  ⟨by decide, by decide, by decide, by decide⟩

/-- Claim C1 (amended): in non-dry-run mode each successful rewrite is
written to disk immediately, before later rules are processed; when a rule
fails, the configured sequence splits into an already-processed prefix whose
writes are in place, the failing rule, and an untouched remainder: every path
not written by the successful prefix is exactly as found, and the
configuration store is not updated. -/
theorem C1_amended_thm (ph : Placeholders) (files : List (String × FileConfig))
    (fs : FS) (e : MainErr)
    (h : (run false ph files fs).1 = .error e) :
    (run false ph files fs).2.2 = false
    ∧ ∃ done bad rest, files = done ++ bad :: rest
      ∧ processFiles false ph done fs = (.ok (), (run false ph files fs).2.1)
      ∧ processFiles false ph (bad :: rest) (run false ph files fs).2.1
          = (.error e, (run false ph files fs).2.1)
      ∧ ∀ p, (∀ q ∈ done, q.1 ≠ p) → (run false ph files fs).2.1 p = fs p := by
  rcases hpf : processFiles false ph files fs with ⟨res, fs'⟩
  cases res with
  | ok u =>
    exfalso
    cases u
    unfold run at h
    rw [hpf] at h
    exact Except.noConfusion h
  | error e0 =>
    have hrun : run false ph files fs = (.error e0, fs', false) := by
      unfold run
      rw [hpf]
    rw [hrun] at h
    cases h
    rw [hrun]
    obtain ⟨done, bad, rest, hsplit, hdone, hbad⟩ :=
      processFiles_error_split ph files fs fs' _ hpf
    refine ⟨rfl, done, bad, rest, hsplit, hdone, hbad, ?_⟩
    intro p hp
    have hu := processFiles_untouched false ph done fs p hp
    rw [hdone] at hu
    exact hu

/-- Claim C1, witness for the amended theorem at the concrete two-file
scenario of the counterexample. -/
theorem C1_wit :
    (run false C1ph C1files C1fs).1
        = .error (.rewrite (.patternNotFound "1.0.0".toList "f2"))
    ∧ ((run false C1ph C1files C1fs).2.2 = false
      ∧ ∃ done bad rest, C1files = done ++ bad :: rest
        ∧ processFiles false C1ph done C1fs
            = (.ok (), (run false C1ph C1files C1fs).2.1)
        ∧ processFiles false C1ph (bad :: rest) (run false C1ph C1files C1fs).2.1
            = (.error (.rewrite (.patternNotFound "1.0.0".toList "f2")),
               (run false C1ph C1files C1fs).2.1)
        ∧ ∀ p, (∀ q ∈ done, q.1 ≠ p) → (run false C1ph C1files C1fs).2.1 p = C1fs p) :=
  ⟨by decide, C1_amended_thm C1ph C1files C1fs _ (by decide)⟩

/-- Claim C2, counterexample: a template holding two occurrences of the
new-version token is rendered with only the first occurrence replaced — the
second survives verbatim, so the output still contains the token. -/
theorem C2_cex :
    Placeholders.replace ⟨⟨1, 0, 0, [], []⟩, ⟨2, 0, 0, [], []⟩⟩ (tokNew ++ ' ' :: tokNew)
      = "2.0.0 ".toList ++ tokNew
    ∧ containsTok tokNew
        (Placeholders.replace ⟨⟨1, 0, 0, [], []⟩, ⟨2, 0, 0, [], []⟩⟩
          (tokNew ++ ' ' :: tokNew)) = true :=
  ⟨by decide, by decide⟩

/-- Claim C2 (amended): `Placeholders::replace` substitutes only the FIRST
occurrence of each token with the corresponding version's canonical text;
everything around it — including any later occurrences of the token — is
kept verbatim. -/
theorem C2_amended_thm (ph : Placeholders) (a b : List Char) :
    (containsTok tokCur (a ++ tokNew ++ b) = false →
      containsTok tokNew (a ++ tokNew.dropLast) = false →
      Placeholders.replace ph (a ++ tokNew ++ b)
        = a ++ versionChars ph.new_version ++ b)
    ∧ (containsTok tokCur (a ++ tokCur.dropLast) = false →
      containsTok tokNew (a ++ versionChars ph.current_version ++ b) = false →
      Placeholders.replace ph (a ++ tokCur ++ b)
        = a ++ versionChars ph.current_version ++ b) := by
  constructor
  · intro h1 h2
    unfold Placeholders.replace
    rw [replaceFirst_no_occurrence tokCur _ _ h1]
    exact replaceFirst_at_boundary tokNew _ a b (by decide) h2
  · intro h1 h2
    unfold Placeholders.replace
    rw [replaceFirst_at_boundary tokCur _ a b (by decide) h1]
    exact replaceFirst_no_occurrence tokNew _ _ h2

/-- Claim C2, witness for the amended theorem at a concrete template. -/
theorem C2_wit :
    containsTok tokCur ("x ".toList ++ tokNew ++ " y".toList) = false
    ∧ containsTok tokNew ("x ".toList ++ tokNew.dropLast) = false
    ∧ Placeholders.replace ⟨⟨1, 0, 0, [], []⟩, ⟨2, 0, 0, [], []⟩⟩
        ("x ".toList ++ tokNew ++ " y".toList)
      = "x ".toList ++ versionChars ⟨2, 0, 0, [], []⟩ ++ " y".toList :=
  ⟨by decide, by decide,
    (C2_amended_thm ⟨⟨1, 0, 0, [], []⟩, ⟨2, 0, 0, [], []⟩⟩ "x ".toList " y".toList).1
      (by decide) (by decide)⟩

/-- Claim C9, counterexample: the rule `(search: "a", replace: "$0")` applied
to contents `"a"` yields `"a"` — `replace_all` with a `String` replacer
`$`-expands the replacement, and `$0` is the whole match — not the rendered
replacement text `"$0"` that the claim prescribes inserting. -/
theorem C9_cex :
    replace_version ['a'] "f" ⟨['a'], ['$', '0']⟩ C9ph = .ok ['a']
    ∧ replace_version ['a'] "f" ⟨['a'], ['$', '0']⟩ C9ph ≠ .ok ['$', '0']
    ∧ (['a'] : List Char) ≠ ['$', '0'] :=
  ⟨by decide, by decide, by decide⟩

/-- Claim C9 (amended): when the rendered, `+`-escaped search pattern
compiles, the rewrite fails — with a pattern-not-found error reporting the
rendered pattern and the file — exactly when the pattern matches nowhere in
the contents; otherwise it replaces every match occurrence with the rendered
replacement text after `$`-expansion against that match (`$$` is a literal
`$`, a reference to group 0 is the matched text, any other group reference
is empty, a lone `$` stays literal), and a rendered replacement containing
no `$` is inserted verbatim. -/
theorem C9_thm (content : List Char) (file_path : String) (fc : FileConfig)
    (ph : Placeholders) (re : List RTok)
    (hc : compile (escapePlus (ph.replace fc.search)) = Option.some re) :
    (replace_version content file_path fc ph
        = .error (.patternNotFound (escapePlus (ph.replace fc.search)) file_path)
      ↔ isMatch re content = false)
    ∧ (isMatch re content = true →
      replace_version content file_path fc ph
        = .ok (replaceAll re (ph.replace fc.replace) content))
    ∧ (containsTok ['$'] (ph.replace fc.replace) = false →
      ∀ (matched : List Char) (fuel : Nat),
        expandDollar matched fuel (ph.replace fc.replace) = ph.replace fc.replace) := by
  refine ⟨?_, ?_, fun hd matched fuel => expandDollar_no_dollar matched fuel _ hd⟩
  all_goals simp only [replace_version, hc]
  all_goals cases hm : isMatch re content with
  | false =>
    rw [if_neg (by simp)]
    first
      | exact ⟨fun _ => rfl, fun _ => rfl⟩
      | exact fun hh => Bool.noConfusion hh
  | true =>
    rw [if_pos rfl]
    first
      | exact ⟨fun hh => Except.noConfusion hh, fun hh => Bool.noConfusion hh⟩
      | exact fun _ => rfl

/-- Claim C9, witness: the spec's idempotence scenario — contents already
holding only the new version fail with pattern-not-found rather than
silently succeeding. -/
theorem C9_wit :
    compile (escapePlus (C9ph.replace C9fc.search)) = Option.some C9re
    ∧ isMatch C9re C9content = false
    ∧ (replace_version C9content "Cargo.toml" C9fc C9ph
        = .error (.patternNotFound (escapePlus (C9ph.replace C9fc.search)) "Cargo.toml")
      ↔ isMatch C9re C9content = false) :=
  ⟨by decide, by decide,
    (C9_thm C9content "Cargo.toml" C9fc C9ph C9re (by decide)).1⟩

end Incrementor
